import Mathlib

/-!
# Verification of the line parser of the polynomial calculator

This file gives a shallow embedding, in Lean 4, of the input-conversion
module (`src/parse.c`) of the polynomial calculator, and proves the
stated properties of its behaviour.

Modelling conventions:

* An input line is a `CVector`: the line reader stores the bytes of the
  line (newline stripped) followed by a terminating NUL byte, and `size`
  counts all stored bytes including that final NUL.  The stored bytes may
  themselves contain embedded NUL characters.  We keep `content` (bytes
  before the final terminator) as the structure field; `items` and `size`
  are derived, matching the C fields.
* C strings are modelled as `List Char`; reading `*p` when `p` stands at
  the end of the list yields `'\x00'` (function `peek`), and C-string
  truncation at the first NUL is `cstr`.
* The libc conversions `strtoll`/`strtoull`/`strtol` are modelled for an
  LP64 platform (`long` = `long long` = signed 64-bit, `size_t` =
  `unsigned long long` = unsigned 64-bit, `int` = signed 32-bit) in
  decimal base, without the leading-whitespace skip (every call site in
  `parse.c` first checks that the subject starts with a digit or a sign,
  so the skip is dead code there).  On overflow they clamp the result and
  report a range error, like `errno == ERANGE`.
* The recursive-descent polynomial parser is defined with an explicit
  fuel parameter to make it structurally recursive.  `ParsePoly` supplies
  `3 * n + 3` fuel for an input of length `n`, which exceeds the
  recursion depth of the C parser on any input of that length: one unit
  of fuel is spent per level of the `ParsePolyHelper`/`SumLoop`/
  `ParseMono` chain, the chain re-enters `ParsePolyHelper` only after
  consuming the opening parenthesis of a monomial, and the sum loop
  iterates only after consuming at least one whole `(...)` group and a
  `+`.
* `PrintErrorMsg` writes one line to `stderr`; we model output by having
  each conversion function return the list of diagnostic lines it
  printed, in order.
-/

set_option maxHeartbeats 1000000

namespace PolyCalc

/-- One stored input line.  `content` is the byte sequence of the line
(without the final terminator); the line reader always appends one
terminating NUL after it. -/
structure CVector where
  content : List Char

/-- The stored character array of the line: content plus terminating NUL
(C field `items`). -/
def CVector.items (cv : CVector) : List Char := cv.content ++ ['\x00']

/-- Number of stored characters, the terminating NUL included
(C field `size`). -/
def CVector.size (cv : CVector) : Nat := cv.items.length

/-- C `isdigit` in the C locale. -/
def Cisdigit (c : Char) : Bool := decide ('0' ≤ c) && decide (c ≤ '9')

/-- C `isalpha` in the C locale. -/
def Cisalpha (c : Char) : Bool :=
  (decide ('a' ≤ c) && decide (c ≤ 'z')) || (decide ('A' ≤ c) && decide (c ≤ 'Z'))

/-- C `isspace` in the C locale: space, tab, newline, vertical tab, form
feed, carriage return. -/
def Cisspace (c : Char) : Bool :=
  decide (c = ' ') || (decide ('\x09' ≤ c) && decide (c ≤ '\x0d'))

/-- Truncation of a stored character list at the first NUL: the C string
denoted by a `char *` into the buffer. -/
def cstr (l : List Char) : List Char := l.takeWhile (fun c => decide (c ≠ '\x00'))

/-- Dereferencing a C-string position: the head character, or NUL at the
end of the list. -/
def peek (s : List Char) : Char := s.headD '\x00'

/-- `IsPrefix(pre, str)` from the source: `strncmp(pre, str, strlen(pre)) == 0`.
For a NUL-free `pre` this holds exactly when `pre` is a list prefix of the
C string `str`.  (The source's name is kept as `IsPref` only because of a
lexical restriction of this development.) -/
def IsPref (pre : String) (s : List Char) : Bool := pre.toList.isPrefixOf s

/-- `IsCorrectCommand`: `str` is a prefix of the line and the following
character is a whitespace character or the terminator. -/
def IsCorrectCommand (cv : CVector) (s : String) : Bool :=
  IsPref s (cstr cv.items) &&
    ((decide (s.length < cv.size) && Cisspace (cv.items.getD s.length '\x00')) ||
     (decide (cv.size - 1 = s.length) && decide (cv.items.getD s.length '\x00' = '\x00')))

/-- `IsEqual`: the stored line equals the string `str`, sizes included
(`cv->size == strlen(str) + 1 && strcmp(cv->items, str) == 0`). -/
def IsEqual (cv : CVector) (s : String) : Bool :=
  decide (cv.size = s.length + 1) && decide (cstr cv.items = s.toList)

/-- `IsLegalCaracter` (name as in the source): a character allowed in a
polynomial literal. -/
def IsLegalCaracter (c : Char) : Bool :=
  Cisdigit c || decide (c = '-') || decide (c = '+') || decide (c = '(') ||
    decide (c = ')') || decide (c = ',')

/-- `HasIllegalCharacters`: some stored character before the final
terminator (indices `0 .. size-2`) is not legal in a polynomial. -/
def HasIllegalCharacters (cv : CVector) : Bool :=
  (cv.items.take (cv.size - 1)).any (fun c => ! IsLegalCaracter c)

/-- `IsDigitOrMinus`. -/
def IsDigitOrMinus (c : Char) : Bool := Cisdigit c || decide (c = '-')

/-- The counter loop of `AreParenthesesValid`: runs while characters
remain and the counter is nonnegative; returns the final counter. -/
def parenLoop : List Char → Int → Int
  | [], ctr => ctr
  | c :: s, ctr =>
    if ctr < 0 then ctr
    else parenLoop s (if c = '(' then ctr + 1 else if c = ')' then ctr - 1 else ctr)

/-- `AreParenthesesValid`: the counter returns to exactly zero and (by
the loop guard) never goes negative. -/
def AreParenthesesValid (s : List Char) : Bool := decide (parenLoop s 0 = 0)

/-- `HasDegByAnArgument`: `str->size >= 8 && str->items[6] == ' ' && isdigit(str->items[7])`. -/
def HasDegByAnArgument (cv : CVector) : Bool :=
  decide (8 ≤ cv.size) && decide (cv.items.getD 6 '\x00' = ' ') &&
    Cisdigit (cv.items.getD 7 '\x00')

/-- `HasComposeAnArgument`: `str->size >= 9 && str->items[7] == ' ' && isdigit(str->items[8])`. -/
def HasComposeAnArgument (cv : CVector) : Bool :=
  decide (9 ≤ cv.size) && decide (cv.items.getD 7 '\x00' = ' ') &&
    Cisdigit (cv.items.getD 8 '\x00')

/-- `HasAtAnArgument`: `str->size >= 4 && str->items[2] == ' ' && IsDigitOrMinus(str->items[3])`. -/
def HasAtAnArgument (cv : CVector) : Bool :=
  decide (4 ≤ cv.size) && decide (cv.items.getD 2 '\x00' = ' ') &&
    IsDigitOrMinus (cv.items.getD 3 '\x00')

/-- `LLONG_MAX` on an LP64 platform. -/
def LLONG_MAX : Int := 2 ^ 63 - 1

/-- `LLONG_MIN` on an LP64 platform. -/
def LLONG_MIN : Int := -(2 ^ 63)

/-- `ULLONG_MAX` on an LP64 platform. -/
def ULLONG_MAX : Nat := 2 ^ 64 - 1

/-- `INT_MAX` (32-bit `int`). -/
def INT_MAX : Int := 2 ^ 31 - 1

/-- Result of a libc numeric conversion: the converted value, the
position where conversion stopped (`*endptr`), and whether
`errno == ERANGE` was produced. -/
structure ConvResult where
  value : Int
  rest : List Char
  range : Bool
deriving Repr

/-- Optional single sign at the start of a numeric subject sequence:
returns (negative?, characters after the sign). -/
def signSplit (s : List Char) : Bool × List Char :=
  match s with
  | [] => (false, [])
  | c :: t =>
    if c = '-' then (true, t) else if c = '+' then (false, t) else (false, c :: t)

/-- The maximal run of decimal digits at the front. -/
def decDigits (s : List Char) : List Char := s.takeWhile Cisdigit

/-- What remains after the maximal run of decimal digits at the front. -/
def decRest (s : List Char) : List Char := s.dropWhile Cisdigit

/-- Value of a decimal digit string. -/
def decVal (ds : List Char) : Nat := ds.foldl (fun a c => 10 * a + (c.toNat - 48)) 0

/-- Whether the subject sequence carries a minus sign. -/
def signNeg (s : List Char) : Bool := (signSplit s).1

/-- The subject sequence with its optional sign removed. -/
def signTail (s : List Char) : List Char := (signSplit s).2

/-- The mathematical value denoted by the (signed) digit run at the
front of the subject sequence. -/
def subjectVal (s : List Char) : Int :=
  if signNeg s then -(decVal (decDigits (signTail s)) : Int)
  else (decVal (decDigits (signTail s)) : Int)

/-- `strtoll(s, end, 10)` on LP64, without the (dead at all call sites)
leading-whitespace skip.  If no digits follow the optional sign, no
conversion is performed and `*endptr` is the original pointer. -/
def strtoll (s : List Char) : ConvResult :=
  if decDigits (signTail s) = [] then ⟨0, s, false⟩
  else if subjectVal s > LLONG_MAX then ⟨LLONG_MAX, decRest (signTail s), true⟩
  else if subjectVal s < LLONG_MIN then ⟨LLONG_MIN, decRest (signTail s), true⟩
  else ⟨subjectVal s, decRest (signTail s), false⟩

/-- `strtol(s, end, 10)`: on LP64 `long` has the same range as
`long long`, so the conversion coincides with `strtoll`. -/
def strtol (s : List Char) : ConvResult := strtoll s

/-- `strtoull(s, end, 10)` on LP64.  A negated subject wraps modulo
`2^64`; `ERANGE` is reported when the digit value exceeds `ULLONG_MAX`. -/
def strtoull (s : List Char) : ConvResult :=
  if decDigits (signTail s) = [] then ⟨0, s, false⟩
  else if decVal (decDigits (signTail s)) > ULLONG_MAX then
    ⟨(ULLONG_MAX : Int), decRest (signTail s), true⟩
  else if signNeg s then
    ⟨((2 ^ 64 - decVal (decDigits (signTail s)) % 2 ^ 64) % 2 ^ 64 : Nat),
      decRest (signTail s), false⟩
  else ⟨(decVal (decDigits (signTail s)) : Int), decRest (signTail s), false⟩

/-- `ArgumentError`: range error, or conversion did not stop on the
terminator, or it stopped before the last stored character
(`(size_t)(end - str->items) != str->size - 1`; the pointer difference
`end - items` is `size - rest.length` since `end` points into `items`). -/
def ArgumentError (cv : CVector) (r : ConvResult) : Bool :=
  r.range || decide (peek r.rest ≠ '\x00') ||
    decide (cv.size - r.rest.length ≠ cv.size - 1)

/-- Error message of a bad `DEG_BY` argument. -/
def DEG_BY_WRONG_VARIABLE : String := "DEG BY WRONG VARIABLE"

/-- Error message of a bad `AT` argument. -/
def AT_WRONG_VALUE : String := "AT WRONG VALUE"

/-- Error message of a bad `COMPOSE` argument. -/
def COMPOSE_WRONG_PARAMETER : String := "COMPOSE WRONG PARAMETER"

/-- Error message of an unrecognized command. -/
def WRONG_COMMAND : String := "WRONG COMMAND"

/-- Error message of a malformed polynomial. -/
def WRONG_POLY : String := "WRONG POLY"

/-- Error message of the driver's stack-depth checks (emitted by the
calculator driver, not by the parsing module). -/
def STACK_UNDERFLOW : String := "STACK UNDERFLOW"

/-- `PrintErrorMsg`: the diagnostic line written to the error stream. -/
def PrintErrorMsg (lineNr : Nat) (msg : String) : String :=
  "ERROR " ++ toString lineNr ++ " " ++ msg

mutual
/-- A polynomial value as built by the parser: a constant coefficient or
a list of monomials handed to `PolyAddMonos`. -/
inductive Poly where
  | pcoeff : Int → Poly
  | psum : List Mono → Poly

/-- A monomial: a coefficient polynomial and an exponent. -/
inductive Mono where
  | mk : Poly → Int → Mono
end

/-- `PolyFromCoeff` of the polynomial engine: builds a constant
polynomial (spec: `FromCoefficient(c) → Constant(c)`). -/
def PolyFromCoeff (c : Int) : Poly := Poly.pcoeff c

/-- `MonoFromPoly` of the polynomial engine: pairs a coefficient
polynomial with an exponent. -/
def MonoFromPoly (p : Poly) (e : Int) : Mono := Mono.mk p e

/-- Modelled from the spec: `PolyAddMonos` of the polynomial engine
(whose body is not part of this module) consumes the collected monomial
list and builds the canonical polynomial from it.  Every claim proved
here quantifies over the polynomial value produced on a successful
parse and never inspects it, so the normalization performed by the
engine is irrelevant and the term list is kept as is. -/
def PolyAddMonos (monos : List Mono) : Poly := Poly.psum monos

/-- The command vocabulary. -/
inductive CommandT where
  | ZERO | IS_COEFF | IS_ZERO | CLONE | ADD | MUL | NEG | SUB | IS_EQ
  | DEG | PRINT | POP | DEG_BY | AT | COMPOSE
deriving DecidableEq, Repr

/-- A converted line (the `Line` tagged union): an error, a command
without argument, a command with its argument, or a polynomial literal. -/
inductive Line where
  | wrong : Line
  | cmd : CommandT → Line
  | cmdArg : CommandT → Int → Line
  | poly : Poly → Line

/-- `WrongLine()`. -/
def WrongLine : Line := Line.wrong

/-- `CommandLine(c)`. -/
def CommandLine (c : CommandT) : Line := Line.cmd c

/-- `CommandLineWithArg(c, arg)`. -/
def CommandLineWithArg (c : CommandT) (arg : Int) : Line := Line.cmdArg c arg

/-- `PolyLine(p)`. -/
def PolyLine (p : Poly) : Line := Line.poly p

/-- The keyword of each command. -/
def kwString : CommandT → String
  | .ZERO => "ZERO"
  | .IS_COEFF => "IS_COEFF"
  | .IS_ZERO => "IS_ZERO"
  | .CLONE => "CLONE"
  | .ADD => "ADD"
  | .MUL => "MUL"
  | .NEG => "NEG"
  | .SUB => "SUB"
  | .IS_EQ => "IS_EQ"
  | .DEG => "DEG"
  | .PRINT => "PRINT"
  | .POP => "POP"
  | .DEG_BY => "DEG_BY"
  | .AT => "AT"
  | .COMPOSE => "COMPOSE"

/-- `ParseCommand`: classification of a line whose first character is
alphabetic.  Returns the converted line together with the diagnostic
lines printed on the error stream. -/
def ParseCommand (cv : CVector) (n : Nat) : Line × List String :=
  if IsEqual cv "ZERO" then (CommandLine .ZERO, []) else
  if IsEqual cv "IS_COEFF" then (CommandLine .IS_COEFF, []) else
  if IsEqual cv "IS_ZERO" then (CommandLine .IS_ZERO, []) else
  if IsEqual cv "CLONE" then (CommandLine .CLONE, []) else
  if IsEqual cv "ADD" then (CommandLine .ADD, []) else
  if IsEqual cv "MUL" then (CommandLine .MUL, []) else
  if IsEqual cv "NEG" then (CommandLine .NEG, []) else
  if IsEqual cv "SUB" then (CommandLine .SUB, []) else
  if IsEqual cv "IS_EQ" then (CommandLine .IS_EQ, []) else
  if IsEqual cv "DEG" then (CommandLine .DEG, []) else
  if IsEqual cv "PRINT" then (CommandLine .PRINT, []) else
  if IsEqual cv "POP" then (CommandLine .POP, []) else
  if IsCorrectCommand cv "DEG_BY" then
    (if HasDegByAnArgument cv then
      (if ArgumentError cv (strtoull (cv.items.drop 7)) then
        (WrongLine, [PrintErrorMsg n DEG_BY_WRONG_VARIABLE])
       else (CommandLineWithArg .DEG_BY (strtoull (cv.items.drop 7)).value, []))
     else (WrongLine, [PrintErrorMsg n DEG_BY_WRONG_VARIABLE])) else
  if IsCorrectCommand cv "AT" then
    (if HasAtAnArgument cv then
      (if ArgumentError cv (strtoll (cv.items.drop 3)) then
        (WrongLine, [PrintErrorMsg n AT_WRONG_VALUE])
       else (CommandLineWithArg .AT (strtoll (cv.items.drop 3)).value, []))
     else (WrongLine, [PrintErrorMsg n AT_WRONG_VALUE])) else
  if IsCorrectCommand cv "COMPOSE" then
    (if HasComposeAnArgument cv then
      (if ArgumentError cv (strtoull (cv.items.drop 8)) then
        (WrongLine, [PrintErrorMsg n COMPOSE_WRONG_PARAMETER])
       else (CommandLineWithArg .COMPOSE (strtoull (cv.items.drop 8)).value, []))
     else (WrongLine, [PrintErrorMsg n COMPOSE_WRONG_PARAMETER])) else
  (WrongLine, [PrintErrorMsg n WRONG_COMMAND])

/-- `ParseExp`: converts a monomial exponent.  Fails when the first
character is not a digit, on a range error of `strtol`, when the
character after the digits is not `')'`, or when the value exceeds
`INT_MAX`.  Returns (value, stop position, error flag). -/
def ParseExp (s : List Char) : Int × List Char × Bool :=
  if ! Cisdigit (peek s) then (0, s, true)
  else if (strtol s).range = true ∨ peek (strtol s).rest ≠ ')' ∨
      (strtol s).value > INT_MAX then (0, (strtol s).rest, true)
  else ((strtol s).value, (strtol s).rest, false)

mutual
/-- `ParsePolyHelper`, with explicit fuel.  Fails on empty input; a line
starting with a digit or `'-'` is a coefficient whose conversion must
stop at `','` or the terminator; otherwise the monomial-sum loop runs. -/
def ParsePolyHelperF : Nat → List Char → Poly × List Char × Bool
  | 0, s => (Poly.pcoeff 0, s, true)
  | fuel + 1, s =>
    if peek s = '\x00' then (Poly.pcoeff 0, s, true)
    else if IsDigitOrMinus (peek s) then
      (let r := strtoll s
       if r.range = true ∨ (peek r.rest ≠ ',' ∧ peek r.rest ≠ '\x00') then
         (PolyFromCoeff r.value, r.rest, true)
       else (PolyFromCoeff r.value, r.rest, false))
    else SumLoopF fuel s []

/-- The `while (true)` monomial-sum loop of `ParsePolyHelper`, with the
accumulated monomial vector.  Each iteration requires `'('`, parses one
monomial, steps over its closing `')'`, and either stops before `','` or
the terminator, or continues past `'+'`. -/
def SumLoopF : Nat → List Char → List Mono → Poly × List Char × Bool
  | 0, s, _ => (Poly.pcoeff 0, s, true)
  | fuel + 1, s, acc =>
    if peek s ≠ '(' then (Poly.pcoeff 0, s, true)
    else
      match ParseMonoF fuel (s.drop 1) with
      | (m, r, e) =>
        if e = true then (Poly.pcoeff 0, r, true)
        else
          let r1 := r.drop 1
          if peek r1 = '\x00' ∨ peek r1 = ',' then (PolyAddMonos (acc ++ [m]), r1, false)
          else if peek r1 ≠ '+' then (Poly.pcoeff 0, r1, true)
          else SumLoopF fuel (r1.drop 1) (acc ++ [m])

/-- `ParseMono`, with explicit fuel: coefficient polynomial, `','`,
exponent; on success the stop position holds the closing `')'`. -/
def ParseMonoF : Nat → List Char → Mono × List Char × Bool
  | 0, s => (Mono.mk (Poly.pcoeff 0) 0, s, true)
  | fuel + 1, s =>
    if peek s = '\x00' then (Mono.mk (Poly.pcoeff 0) 0, s, true)
    else
      match ParsePolyHelperF fuel s with
      | (p, r, e) =>
        if e = true then (Mono.mk (Poly.pcoeff 0) 0, r, true)
        else if peek r = '\x00' then (Mono.mk (Poly.pcoeff 0) 0, r, true)
        else
          match ParseExp (r.drop 1) with
          | (x, r2, e2) =>
            if e2 = true then (Mono.mk (Poly.pcoeff 0) 0, r2, true)
            else (MonoFromPoly p x, r2, false)
end

/-- `ParsePoly`: the two up-front checks, then the structural parser on
the C string of the line, then the trailing-character check. -/
def ParsePoly (cv : CVector) (n : Nat) : Line × List String :=
  if HasIllegalCharacters cv || ! AreParenthesesValid (cstr cv.items) then
    (WrongLine, [PrintErrorMsg n WRONG_POLY])
  else
    match ParsePolyHelperF (3 * (cstr cv.items).length + 3) (cstr cv.items) with
    | (p, r, e) =>
      if e = true ∨ peek r ≠ '\x00' then (WrongLine, [PrintErrorMsg n WRONG_POLY])
      else (PolyLine p, [])

/-- `Parse`: routes on the first stored character. -/
def Parse (cv : CVector) (n : Nat) : Line × List String :=
  if Cisalpha (cv.items.getD 0 '\x00') then ParseCommand cv n else ParsePoly cv n

/-- Specification-side grammar, written after the spec's EBNF:
`Coefficient := ['-'] digit+`. -/
def CoeffG (l : List Char) : Prop :=
  ∃ ds, ds ≠ [] ∧ (∀ c ∈ ds, Cisdigit c = true) ∧ (l = ds ∨ l = '-' :: ds)

mutual
/-- Specification-side grammar: `Polynomial := Coefficient | TermSum`. -/
inductive PolyG : List Char → Prop where
  | coefficient : ∀ l, CoeffG l → PolyG l
  | sum : ∀ l, TermSumG l → PolyG l

/-- Specification-side grammar: `TermSum := Term ('+' Term)*`. -/
inductive TermSumG : List Char → Prop where
  | one : ∀ l, TermG l → TermSumG l
  | more : ∀ t rest, TermG t → TermSumG rest → TermSumG (t ++ '+' :: rest)

/-- Specification-side grammar: `Term := '(' Polynomial ',' Exponent ')'`
with `Exponent := digit+`. -/
inductive TermG : List Char → Prop where
  | mk : ∀ p e, PolyG p → e ≠ [] → (∀ c ∈ e, Cisdigit c = true) →
      TermG ('(' :: (p ++ ',' :: (e ++ [')'])))
end

/-- A line mixing the two polynomial forms: a coefficient followed by
`'+'` and more text, or a term sum followed by `'+'` and a bare
coefficient. -/
def MixedForm (l : List Char) : Prop :=
  (∃ a b, CoeffG a ∧ l = a ++ '+' :: b) ∨
  (∃ t c, TermSumG t ∧ CoeffG c ∧ l = t ++ '+' :: c)

/-- The fixed set of diagnostic messages of the calculator. -/
def MsgSet (m : String) : Prop :=
  m = WRONG_COMMAND ∨ m = WRONG_POLY ∨ m = DEG_BY_WRONG_VARIABLE ∨
  m = AT_WRONG_VALUE ∨ m = COMPOSE_WRONG_PARAMETER ∨ m = STACK_UNDERFLOW


/-! ## Basic facts about the line representation -/

theorem size_eq (cv : CVector) : cv.size = cv.content.length + 1 := by
  simp [CVector.size, CVector.items]

theorem cstr_append_nul (l : List Char) : cstr (l ++ ['\x00']) = cstr l := by
  induction l with
  | nil => simp [cstr]
  | cons c t ih =>
    by_cases h : c = '\x00'
    · simp [cstr, List.takeWhile_cons, h]
    · simp [cstr, List.takeWhile_cons, h]
      simpa [cstr] using ih

theorem cstr_items (cv : CVector) : cstr cv.items = cstr cv.content :=
  cstr_append_nul cv.content

theorem cstr_prefix_self (l : List Char) : cstr l <+: l := List.takeWhile_prefix _

theorem cstr_no_nul {l : List Char} {c : Char} (h : c ∈ cstr l) : c ≠ '\x00' := by
  have := List.mem_takeWhile_imp h
  simpa using this

theorem cstr_eq_self {l : List Char} (h : ∀ c ∈ l, c ≠ '\x00') : cstr l = l := by
  rw [cstr, List.takeWhile_eq_self_iff]
  intro x hx
  simpa using h x hx

/-! ## Helpers about indexing, prefixes and the numeric conversions -/

theorem getD_append_add (a b : List Char) (k : Nat) (d : Char) :
    (a ++ b).getD (a.length + k) d = b.getD k d := by
  induction a with
  | nil => simp
  | cons x xs ih => simpa [Nat.succ_add] using ih

theorem peek_drop (l : List Char) (k : Nat) : peek (l.drop k) = l.getD k '\x00' := by
  rw [peek, List.headD_eq_head?, List.head?_eq_getElem?, List.getElem?_drop,
    List.getD_eq_getElem?_getD, Nat.add_zero]

theorem IsEqual_content {cv : CVector} {s : String} (h : IsEqual cv s = true) :
    cv.content = s.toList := by
  rw [IsEqual, Bool.and_eq_true, decide_eq_true_eq, decide_eq_true_eq] at h
  obtain ⟨h1, h2⟩ := h
  rw [size_eq] at h1
  rw [cstr_items] at h2
  have hpre : cstr cv.content <+: cv.content := cstr_prefix_self _
  have hlen : (cstr cv.content).length = cv.content.length := by
    rw [h2]
    have hs : s.toList.length = s.length := by simp
    omega
  rw [← hpre.eq_of_length hlen, h2]

theorem IsPref_content {s : String} {cv : CVector} (h : IsPref s (cstr cv.items) = true) :
    ∃ t, cv.content = s.toList ++ t := by
  rw [IsPref, List.isPrefixOf_iff_prefix] at h
  have h2 : s.toList <+: cv.content := by
    rw [cstr_items] at h
    exact h.trans (cstr_prefix_self _)
  obtain ⟨t, ht⟩ := h2
  exact ⟨t, ht.symm⟩

theorem cstr_cons (c : Char) (l : List Char) :
    cstr (c :: l) = if c = '\x00' then [] else c :: cstr l := by
  by_cases h : c = '\x00' <;> simp [cstr, List.takeWhile_cons, h]

theorem not_correct_of_head {c : Char} {t : List Char} {s : String} {d : Char} {u : List Char}
    (hs : s.toList = d :: u) (hne : d ≠ c) :
    IsCorrectCommand ⟨c :: t⟩ s = false := by
  rw [IsCorrectCommand, Bool.and_eq_false_iff]
  left
  rw [IsPref, hs]
  have hit : CVector.items ⟨c :: t⟩ = c :: (t ++ ['\x00']) := by
    simp [CVector.items]
  rw [hit, cstr_cons]
  by_cases h0 : c = '\x00'
  · simp [h0, List.isPrefixOf]
  · simp [h0, List.isPrefixOf, hne]

theorem decDigits_append_decRest (s : List Char) : decDigits s ++ decRest s = s :=
  List.takeWhile_append_dropWhile _ _

theorem decDigits_all {s : List Char} : ∀ c ∈ decDigits s, Cisdigit c = true :=
  fun _ hc => List.mem_takeWhile_imp hc

theorem decDigits_cons_of_digit {c : Char} {t : List Char} (h : Cisdigit c = true) :
    decDigits (c :: t) = c :: decDigits t := by
  simp [decDigits, List.takeWhile_cons, h]

theorem Cisdigit_ne_minus {c : Char} (h : Cisdigit c = true) : c ≠ '-' := by
  intro he
  subst he
  exact absurd h (by decide)

theorem Cisdigit_ne_plus {c : Char} (h : Cisdigit c = true) : c ≠ '+' := by
  intro he
  subst he
  exact absurd h (by decide)

theorem signTail_not_sign {c : Char} {t : List Char} (h1 : c ≠ '-') (h2 : c ≠ '+') :
    signTail (c :: t) = c :: t := by
  simp [signTail, signSplit, h1, h2]

theorem signTail_minus (t : List Char) : signTail ('-' :: t) = t := by
  simp [signTail, signSplit]

theorem strtoll_rest (s : List Char) :
    (strtoll s).rest =
      if decDigits (signTail s) = [] then s else decRest (signTail s) := by
  unfold strtoll
  split_ifs <;> rfl

theorem strtoull_rest (s : List Char) :
    (strtoull s).rest =
      if decDigits (signTail s) = [] then s else decRest (signTail s) := by
  unfold strtoull
  split_ifs <;> rfl

theorem strtoull_rest_eq (s : List Char) : (strtoull s).rest = (strtoll s).rest := by
  rw [strtoull_rest, strtoll_rest]

theorem strtoll_range_false {s : List Char} (h : (strtoll s).range = false) :
    LLONG_MIN ≤ (strtoll s).value ∧ (strtoll s).value ≤ LLONG_MAX := by
  unfold strtoll at h ⊢
  split_ifs at h ⊢ with h1 h2 h3
  · norm_num [LLONG_MIN, LLONG_MAX]
  · have hv : (ConvResult.mk (subjectVal s) (decRest (signTail s)) false).value
        = subjectVal s := rfl
    rw [hv]
    simp only [LLONG_MAX, LLONG_MIN] at h2 h3 ⊢
    omega

/-! ## Decomposition of a successful argument conversion -/

theorem drop_items {cv : CVector} {k : Nat} (hk : k ≤ cv.content.length) :
    cv.items.drop k = cv.content.drop k ++ ['\x00'] := by
  rw [CVector.items, List.drop_append_of_le_length hk]

theorem rest_len_one {cv : CVector} {k : Nat} {q rest : List Char}
    (heq : q ++ rest = cv.content.drop k ++ ['\x00'])
    (hlen : cv.size - rest.length = cv.size - 1) :
    q = cv.content.drop k ∧ rest = ['\x00'] := by
  have h1 := congrArg List.length heq
  simp only [List.length_append, List.length_singleton] at h1
  have hsz : cv.size = cv.content.length + 1 := size_eq cv
  have hdk : (cv.content.drop k).length = cv.content.length - k := by simp
  have hrl : rest.length = 1 := by omega
  exact List.append_inj' heq (by simp [hrl])

theorem strtoll_decomp {s : List Char} (hd : IsDigitOrMinus (peek s) = true) :
    (∃ ds, ds ≠ [] ∧ (∀ c ∈ ds, Cisdigit c = true) ∧
      (s = ds ++ (strtoll s).rest ∨ s = ('-' :: ds) ++ (strtoll s).rest)) ∨
    ((strtoll s).rest = s ∧ ∃ t, s = '-' :: t) := by
  rcases s with _ | ⟨c, t⟩
  · exact absurd hd (by decide)
  · simp only [IsDigitOrMinus, peek, List.headD, Bool.or_eq_true, decide_eq_true_eq] at hd
    rcases hd with hA | hB
    · left
      have hts := signTail_not_sign (t := t) (Cisdigit_ne_minus hA) (Cisdigit_ne_plus hA)
      have hds := decDigits_cons_of_digit (t := t) hA
      refine ⟨decDigits (c :: t), by rw [hds]; simp, decDigits_all, Or.inl ?_⟩
      rw [strtoll_rest, hts, if_neg (by rw [hds]; simp)]
      exact (decDigits_append_decRest (c :: t)).symm
    · subst hB
      have hts := signTail_minus t
      by_cases hdt : decDigits t = []
      · right
        exact ⟨by rw [strtoll_rest, hts, if_pos hdt], t, rfl⟩
      · left
        refine ⟨decDigits t, hdt, decDigits_all, Or.inr ?_⟩
        rw [strtoll_rest, hts, if_neg hdt]
        simp [decDigits_append_decRest]

theorem strtoll_site {cv : CVector} {k : Nat}
    (hk : k ≤ cv.content.length)
    (hlen : cv.size - (strtoll (cv.items.drop k)).rest.length = cv.size - 1)
    (hd : IsDigitOrMinus (peek (cv.items.drop k)) = true) :
    CoeffG (cv.content.drop k) ∧ (strtoll (cv.items.drop k)).rest = ['\x00'] := by
  have hs : cv.items.drop k = cv.content.drop k ++ ['\x00'] := drop_items hk
  rcases strtoll_decomp hd with ⟨ds, hne, hall, hcase⟩ | ⟨hrest, t, hcons⟩
  · rcases hcase with hsplit | hsplit
    · obtain ⟨hpre, hr⟩ := rest_len_one (by rw [← hsplit]; exact hs) hlen
      exact ⟨⟨ds, hne, hall, Or.inl hpre.symm⟩, hr⟩
    · obtain ⟨hpre, hr⟩ := rest_len_one (by rw [← hsplit]; exact hs) hlen
      exact ⟨⟨ds, hne, hall, Or.inr hpre.symm⟩, hr⟩
  · rw [hrest] at hlen
    obtain ⟨-, hr⟩ := rest_len_one (q := []) (by simpa using hs) hlen
    rw [hcons] at hr
    injection hr with h1 h2
    exact absurd h1 (by decide)

theorem argcmd_shape {cv : CVector} {kw : String} {t0 : List Char}
    (hcontent : cv.content = kw.toList ++ t0)
    (hsp : cv.items.getD kw.toList.length '\x00' = ' ')
    (hdig : IsDigitOrMinus (cv.items.getD (kw.toList.length + 1) '\x00') = true)
    (hlen : cv.size - (strtoll (cv.items.drop (kw.toList.length + 1))).rest.length
        = cv.size - 1) :
    ∃ a, cv.content = kw.toList ++ ' ' :: a ∧ CoeffG a := by
  have hitems : cv.items = kw.toList ++ (t0 ++ ['\x00']) := by
    rw [CVector.items, hcontent, List.append_assoc]
  have hget : cv.items.getD kw.toList.length '\x00' = (t0 ++ ['\x00']).getD 0 '\x00' := by
    rw [hitems]
    simpa using getD_append_add kw.toList (t0 ++ ['\x00']) 0 '\x00'
  rcases t0 with _ | ⟨c0, t1⟩
  · rw [hget] at hsp
    simp at hsp
  · have hc0 : c0 = ' ' := by
      rw [hget] at hsp
      simpa using hsp
    subst hc0
    have hcontent2 : cv.content = (kw.toList ++ [' ']) ++ t1 := by
      rw [hcontent]
      simp
    have hklen : (kw.toList ++ [' ']).length = kw.toList.length + 1 := by simp
    have hk : kw.toList.length + 1 ≤ cv.content.length := by
      rw [hcontent2]
      simp
    have hdrop : cv.content.drop (kw.toList.length + 1) = t1 := by
      rw [hcontent2, ← hklen, List.drop_left]
    have hpk : peek (cv.items.drop (kw.toList.length + 1))
        = cv.items.getD (kw.toList.length + 1) '\x00' := peek_drop _ _
    have hsite := strtoll_site hk hlen (by rw [hpk]; exact hdig)
    exact ⟨t1, hcontent, by rw [← hdrop]; exact hsite.1⟩

theorem bool_not_true {b : Bool} (h : ¬ b = true) : b = false := by
  cases b
  · rfl
  · exact absurd rfl h

theorem degby_success_shape {cv : CVector}
    (hD : IsCorrectCommand cv "DEG_BY" = true)
    (hArg : HasDegByAnArgument cv = true)
    (hAE : ArgumentError cv (strtoull (cv.items.drop 7)) = false) :
    ∃ a, cv.content = "DEG_BY".toList ++ ' ' :: a ∧ CoeffG a := by
  rw [IsCorrectCommand, Bool.and_eq_true] at hD
  obtain ⟨t0, hcontent⟩ := IsPref_content hD.1
  rw [HasDegByAnArgument, Bool.and_eq_true, Bool.and_eq_true] at hArg
  obtain ⟨⟨hsz, hsp⟩, hdg⟩ := hArg
  rw [decide_eq_true_eq] at hsp
  rw [ArgumentError, Bool.or_eq_false_iff, Bool.or_eq_false_iff] at hAE
  obtain ⟨⟨hr, hp⟩, hz⟩ := hAE
  have hlen : cv.size - (strtoull (cv.items.drop 7)).rest.length = cv.size - 1 :=
    not_not.mp (of_decide_eq_false hz)
  rw [strtoull_rest_eq] at hlen
  have h6 : ("DEG_BY".toList).length = 6 := by decide
  exact argcmd_shape hcontent (by rw [h6]; exact hsp)
    (by rw [h6]; rw [IsDigitOrMinus, Bool.or_eq_true]; exact Or.inl hdg)
    (by rw [h6]; exact hlen)

theorem at_success_shape {cv : CVector}
    (hA : IsCorrectCommand cv "AT" = true)
    (hArg : HasAtAnArgument cv = true)
    (hAE : ArgumentError cv (strtoll (cv.items.drop 3)) = false) :
    ∃ a, cv.content = "AT".toList ++ ' ' :: a ∧ CoeffG a := by
  rw [IsCorrectCommand, Bool.and_eq_true] at hA
  obtain ⟨t0, hcontent⟩ := IsPref_content hA.1
  rw [HasAtAnArgument, Bool.and_eq_true, Bool.and_eq_true] at hArg
  obtain ⟨⟨hsz, hsp⟩, hdg⟩ := hArg
  rw [decide_eq_true_eq] at hsp
  rw [ArgumentError, Bool.or_eq_false_iff, Bool.or_eq_false_iff] at hAE
  obtain ⟨⟨hr, hp⟩, hz⟩ := hAE
  have hlen : cv.size - (strtoll (cv.items.drop 3)).rest.length = cv.size - 1 :=
    not_not.mp (of_decide_eq_false hz)
  have h2 : ("AT".toList).length = 2 := by decide
  exact argcmd_shape hcontent (by rw [h2]; exact hsp) (by rw [h2]; exact hdg)
    (by rw [h2]; exact hlen)

theorem compose_success_shape {cv : CVector}
    (hC : IsCorrectCommand cv "COMPOSE" = true)
    (hArg : HasComposeAnArgument cv = true)
    (hAE : ArgumentError cv (strtoull (cv.items.drop 8)) = false) :
    ∃ a, cv.content = "COMPOSE".toList ++ ' ' :: a ∧ CoeffG a := by
  rw [IsCorrectCommand, Bool.and_eq_true] at hC
  obtain ⟨t0, hcontent⟩ := IsPref_content hC.1
  rw [HasComposeAnArgument, Bool.and_eq_true, Bool.and_eq_true] at hArg
  obtain ⟨⟨hsz, hsp⟩, hdg⟩ := hArg
  rw [decide_eq_true_eq] at hsp
  rw [ArgumentError, Bool.or_eq_false_iff, Bool.or_eq_false_iff] at hAE
  obtain ⟨⟨hr, hp⟩, hz⟩ := hAE
  have hlen : cv.size - (strtoull (cv.items.drop 8)).rest.length = cv.size - 1 :=
    not_not.mp (of_decide_eq_false hz)
  rw [strtoull_rest_eq] at hlen
  have h7 : ("COMPOSE".toList).length = 7 := by decide
  exact argcmd_shape hcontent (by rw [h7]; exact hsp)
    (by rw [h7]; rw [IsDigitOrMinus, Bool.or_eq_true]; exact Or.inl hdg)
    (by rw [h7]; exact hlen)

/-- Every result of `ParseCommand` is an exact-keyword command, a
command whose line is the keyword, one space and a well-formed numeric
argument, or the error line with one diagnostic from the fixed set. -/
theorem ParseCommand_shape (cv : CVector) (n : Nat) :
    (∃ c, ParseCommand cv n = (Line.cmd c, []) ∧ cv.content = (kwString c).toList) ∨
    (∃ c v a, ParseCommand cv n = (Line.cmdArg c v, []) ∧
      cv.content = (kwString c).toList ++ ' ' :: a ∧ CoeffG a) ∨
    (∃ m, ParseCommand cv n = (Line.wrong, [PrintErrorMsg n m]) ∧
      (m = DEG_BY_WRONG_VARIABLE ∨ m = AT_WRONG_VALUE ∨
       m = COMPOSE_WRONG_PARAMETER ∨ m = WRONG_COMMAND)) := by
  unfold ParseCommand
  by_cases h1 : IsEqual cv "ZERO" = true
  · rw [if_pos h1]
    exact Or.inl ⟨_, rfl, IsEqual_content h1⟩
  rw [if_neg h1]
  by_cases h2 : IsEqual cv "IS_COEFF" = true
  · rw [if_pos h2]
    exact Or.inl ⟨_, rfl, IsEqual_content h2⟩
  rw [if_neg h2]
  by_cases h3 : IsEqual cv "IS_ZERO" = true
  · rw [if_pos h3]
    exact Or.inl ⟨_, rfl, IsEqual_content h3⟩
  rw [if_neg h3]
  by_cases h4 : IsEqual cv "CLONE" = true
  · rw [if_pos h4]
    exact Or.inl ⟨_, rfl, IsEqual_content h4⟩
  rw [if_neg h4]
  by_cases h5 : IsEqual cv "ADD" = true
  · rw [if_pos h5]
    exact Or.inl ⟨_, rfl, IsEqual_content h5⟩
  rw [if_neg h5]
  by_cases h6 : IsEqual cv "MUL" = true
  · rw [if_pos h6]
    exact Or.inl ⟨_, rfl, IsEqual_content h6⟩
  rw [if_neg h6]
  by_cases h7 : IsEqual cv "NEG" = true
  · rw [if_pos h7]
    exact Or.inl ⟨_, rfl, IsEqual_content h7⟩
  rw [if_neg h7]
  by_cases h8 : IsEqual cv "SUB" = true
  · rw [if_pos h8]
    exact Or.inl ⟨_, rfl, IsEqual_content h8⟩
  rw [if_neg h8]
  by_cases h9 : IsEqual cv "IS_EQ" = true
  · rw [if_pos h9]
    exact Or.inl ⟨_, rfl, IsEqual_content h9⟩
  rw [if_neg h9]
  by_cases h10 : IsEqual cv "DEG" = true
  · rw [if_pos h10]
    exact Or.inl ⟨_, rfl, IsEqual_content h10⟩
  rw [if_neg h10]
  by_cases h11 : IsEqual cv "PRINT" = true
  · rw [if_pos h11]
    exact Or.inl ⟨_, rfl, IsEqual_content h11⟩
  rw [if_neg h11]
  by_cases h12 : IsEqual cv "POP" = true
  · rw [if_pos h12]
    exact Or.inl ⟨_, rfl, IsEqual_content h12⟩
  rw [if_neg h12]
  by_cases hD : IsCorrectCommand cv "DEG_BY" = true
  · rw [if_pos hD]
    by_cases hDA : HasDegByAnArgument cv = true
    · rw [if_pos hDA]
      by_cases hDE : ArgumentError cv (strtoull (cv.items.drop 7)) = true
      · rw [if_pos hDE]
        exact Or.inr (Or.inr ⟨_, rfl, by simp⟩)
      · rw [if_neg hDE]
        obtain ⟨a, ha, hc⟩ := degby_success_shape hD hDA (bool_not_true hDE)
        exact Or.inr (Or.inl ⟨.DEG_BY, _, a, rfl, ha, hc⟩)
    · rw [if_neg hDA]
      exact Or.inr (Or.inr ⟨_, rfl, by simp⟩)
  rw [if_neg hD]
  by_cases hA : IsCorrectCommand cv "AT" = true
  · rw [if_pos hA]
    by_cases hAA : HasAtAnArgument cv = true
    · rw [if_pos hAA]
      by_cases hAE : ArgumentError cv (strtoll (cv.items.drop 3)) = true
      · rw [if_pos hAE]
        exact Or.inr (Or.inr ⟨_, rfl, by simp⟩)
      · rw [if_neg hAE]
        obtain ⟨a, ha, hc⟩ := at_success_shape hA hAA (bool_not_true hAE)
        exact Or.inr (Or.inl ⟨.AT, _, a, rfl, ha, hc⟩)
    · rw [if_neg hAA]
      exact Or.inr (Or.inr ⟨_, rfl, by simp⟩)
  rw [if_neg hA]
  by_cases hC : IsCorrectCommand cv "COMPOSE" = true
  · rw [if_pos hC]
    by_cases hCA : HasComposeAnArgument cv = true
    · rw [if_pos hCA]
      by_cases hCE : ArgumentError cv (strtoull (cv.items.drop 8)) = true
      · rw [if_pos hCE]
        exact Or.inr (Or.inr ⟨_, rfl, by simp⟩)
      · rw [if_neg hCE]
        obtain ⟨a, ha, hc⟩ := compose_success_shape hC hCA (bool_not_true hCE)
        exact Or.inr (Or.inl ⟨.COMPOSE, _, a, rfl, ha, hc⟩)
    · rw [if_neg hCA]
      exact Or.inr (Or.inr ⟨_, rfl, by simp⟩)
  rw [if_neg hC]
  exact Or.inr (Or.inr ⟨_, rfl, by simp⟩)

theorem bool_ne_true {b : Bool} (h : b = false) : ¬ b = true := by simp [h]

theorem correct_prefix_content {cv : CVector} {s : String}
    (h : IsCorrectCommand cv s = true) : ∃ t, cv.content = s.toList ++ t := by
  rw [IsCorrectCommand, Bool.and_eq_true] at h
  exact IsPref_content h.1

theorem IsEqual_elim {content : List Char} {s : String} {k : String}
    (hD : IsCorrectCommand ⟨content⟩ s = true)
    (hk : IsCorrectCommand ⟨k.toList⟩ s = false) :
    IsEqual ⟨content⟩ k = false := by
  cases he : IsEqual ⟨content⟩ k
  · rfl
  · exfalso
    have hc : content = k.toList := IsEqual_content he
    subst hc
    rw [hD] at hk
    exact absurd hk (by decide)

/-- When the line is a correct `DEG_BY` command, `ParseCommand` reaches
exactly the `DEG_BY` branch. -/
theorem ParseCommand_degby_branch (cv : CVector) (n : Nat)
    (hD : IsCorrectCommand cv "DEG_BY" = true) :
    ParseCommand cv n =
      (if HasDegByAnArgument cv then
        (if ArgumentError cv (strtoull (cv.items.drop 7)) then
          (WrongLine, [PrintErrorMsg n DEG_BY_WRONG_VARIABLE])
         else (CommandLineWithArg .DEG_BY (strtoull (cv.items.drop 7)).value, []))
       else (WrongLine, [PrintErrorMsg n DEG_BY_WRONG_VARIABLE])) := by
  obtain ⟨content⟩ := cv
  unfold ParseCommand
  rw [if_neg (bool_ne_true (IsEqual_elim (k := "ZERO") hD (by decide))),
    if_neg (bool_ne_true (IsEqual_elim (k := "IS_COEFF") hD (by decide))),
    if_neg (bool_ne_true (IsEqual_elim (k := "IS_ZERO") hD (by decide))),
    if_neg (bool_ne_true (IsEqual_elim (k := "CLONE") hD (by decide))),
    if_neg (bool_ne_true (IsEqual_elim (k := "ADD") hD (by decide))),
    if_neg (bool_ne_true (IsEqual_elim (k := "MUL") hD (by decide))),
    if_neg (bool_ne_true (IsEqual_elim (k := "NEG") hD (by decide))),
    if_neg (bool_ne_true (IsEqual_elim (k := "SUB") hD (by decide))),
    if_neg (bool_ne_true (IsEqual_elim (k := "IS_EQ") hD (by decide))),
    if_neg (bool_ne_true (IsEqual_elim (k := "DEG") hD (by decide))),
    if_neg (bool_ne_true (IsEqual_elim (k := "PRINT") hD (by decide))),
    if_neg (bool_ne_true (IsEqual_elim (k := "POP") hD (by decide))),
    if_pos hD]

/-- When the line is a correct `AT` command, `ParseCommand` reaches
exactly the `AT` branch. -/
theorem ParseCommand_at_branch (cv : CVector) (n : Nat)
    (hA : IsCorrectCommand cv "AT" = true) :
    ParseCommand cv n =
      (if HasAtAnArgument cv then
        (if ArgumentError cv (strtoll (cv.items.drop 3)) then
          (WrongLine, [PrintErrorMsg n AT_WRONG_VALUE])
         else (CommandLineWithArg .AT (strtoll (cv.items.drop 3)).value, []))
       else (WrongLine, [PrintErrorMsg n AT_WRONG_VALUE])) := by
  obtain ⟨content⟩ := cv
  have hD : IsCorrectCommand ⟨content⟩ "DEG_BY" = false := by
    obtain ⟨t0, hc⟩ := correct_prefix_content hA
    rw [show "AT".toList = ['A', 'T'] from by decide] at hc
    simp only [List.cons_append, List.nil_append] at hc
    subst hc
    exact not_correct_of_head (d := 'D') (u := ['E', 'G', '_', 'B', 'Y']) (by decide) (by decide)
  unfold ParseCommand
  rw [if_neg (bool_ne_true (IsEqual_elim (k := "ZERO") hA (by decide))),
    if_neg (bool_ne_true (IsEqual_elim (k := "IS_COEFF") hA (by decide))),
    if_neg (bool_ne_true (IsEqual_elim (k := "IS_ZERO") hA (by decide))),
    if_neg (bool_ne_true (IsEqual_elim (k := "CLONE") hA (by decide))),
    if_neg (bool_ne_true (IsEqual_elim (k := "ADD") hA (by decide))),
    if_neg (bool_ne_true (IsEqual_elim (k := "MUL") hA (by decide))),
    if_neg (bool_ne_true (IsEqual_elim (k := "NEG") hA (by decide))),
    if_neg (bool_ne_true (IsEqual_elim (k := "SUB") hA (by decide))),
    if_neg (bool_ne_true (IsEqual_elim (k := "IS_EQ") hA (by decide))),
    if_neg (bool_ne_true (IsEqual_elim (k := "DEG") hA (by decide))),
    if_neg (bool_ne_true (IsEqual_elim (k := "PRINT") hA (by decide))),
    if_neg (bool_ne_true (IsEqual_elim (k := "POP") hA (by decide))),
    if_neg (bool_ne_true hD), if_pos hA]

/-- When the line is a correct `COMPOSE` command, `ParseCommand` reaches
exactly the `COMPOSE` branch. -/
theorem ParseCommand_compose_branch (cv : CVector) (n : Nat)
    (hC : IsCorrectCommand cv "COMPOSE" = true) :
    ParseCommand cv n =
      (if HasComposeAnArgument cv then
        (if ArgumentError cv (strtoull (cv.items.drop 8)) then
          (WrongLine, [PrintErrorMsg n COMPOSE_WRONG_PARAMETER])
         else (CommandLineWithArg .COMPOSE (strtoull (cv.items.drop 8)).value, []))
       else (WrongLine, [PrintErrorMsg n COMPOSE_WRONG_PARAMETER])) := by
  obtain ⟨content⟩ := cv
  obtain ⟨t0, hc⟩ := correct_prefix_content hC
  rw [show "COMPOSE".toList = ['C', 'O', 'M', 'P', 'O', 'S', 'E'] from by decide] at hc
  simp only [List.cons_append, List.nil_append] at hc
  subst hc
  have hD : IsCorrectCommand ⟨'C' :: ('O' :: ('M' :: ('P' :: ('O' :: ('S' :: ('E' :: t0))))))⟩
      "DEG_BY" = false :=
    not_correct_of_head (d := 'D') (u := ['E', 'G', '_', 'B', 'Y']) (by decide) (by decide)
  have hA : IsCorrectCommand ⟨'C' :: ('O' :: ('M' :: ('P' :: ('O' :: ('S' :: ('E' :: t0))))))⟩
      "AT" = false :=
    not_correct_of_head (d := 'A') (u := ['T']) (by decide) (by decide)
  unfold ParseCommand
  rw [if_neg (bool_ne_true (IsEqual_elim (k := "ZERO") hC (by decide))),
    if_neg (bool_ne_true (IsEqual_elim (k := "IS_COEFF") hC (by decide))),
    if_neg (bool_ne_true (IsEqual_elim (k := "IS_ZERO") hC (by decide))),
    if_neg (bool_ne_true (IsEqual_elim (k := "CLONE") hC (by decide))),
    if_neg (bool_ne_true (IsEqual_elim (k := "ADD") hC (by decide))),
    if_neg (bool_ne_true (IsEqual_elim (k := "MUL") hC (by decide))),
    if_neg (bool_ne_true (IsEqual_elim (k := "NEG") hC (by decide))),
    if_neg (bool_ne_true (IsEqual_elim (k := "SUB") hC (by decide))),
    if_neg (bool_ne_true (IsEqual_elim (k := "IS_EQ") hC (by decide))),
    if_neg (bool_ne_true (IsEqual_elim (k := "DEG") hC (by decide))),
    if_neg (bool_ne_true (IsEqual_elim (k := "PRINT") hC (by decide))),
    if_neg (bool_ne_true (IsEqual_elim (k := "POP") hC (by decide))),
    if_neg (bool_ne_true hD), if_neg (bool_ne_true hA), if_pos hC]

/-! ## Claims about the command classifier -/

/-- Claim C4: when the keyword of `DEG_BY`, `AT` or `COMPOSE` matches, the
classifier either produces that command with an argument or reports the
command-specific message (never another message and never silence); in
particular `DEG_BY x` at line 1 yields `ERROR 1 DEG BY WRONG VARIABLE`. -/
theorem c4_argument_commands (cv : CVector) (n : Nat) :
    (IsCorrectCommand cv "DEG_BY" = true →
      (∃ v, ParseCommand cv n = (Line.cmdArg .DEG_BY v, [])) ∨
      ParseCommand cv n = (Line.wrong, [PrintErrorMsg n DEG_BY_WRONG_VARIABLE])) ∧
    (IsCorrectCommand cv "AT" = true →
      (∃ v, ParseCommand cv n = (Line.cmdArg .AT v, [])) ∨
      ParseCommand cv n = (Line.wrong, [PrintErrorMsg n AT_WRONG_VALUE])) ∧
    (IsCorrectCommand cv "COMPOSE" = true →
      (∃ v, ParseCommand cv n = (Line.cmdArg .COMPOSE v, [])) ∨
      ParseCommand cv n = (Line.wrong, [PrintErrorMsg n COMPOSE_WRONG_PARAMETER])) ∧
    Parse ⟨"DEG_BY x".toList⟩ 1 = (Line.wrong, ["ERROR 1 DEG BY WRONG VARIABLE"]) := by
  refine ⟨fun hD => ?_, fun hA => ?_, fun hC => ?_, ?_⟩
  · rw [ParseCommand_degby_branch cv n hD]
    split_ifs with h1 h2
    · exact Or.inr rfl
    · exact Or.inl ⟨_, rfl⟩
    · exact Or.inr rfl
  · rw [ParseCommand_at_branch cv n hA]
    split_ifs with h1 h2
    · exact Or.inr rfl
    · exact Or.inl ⟨_, rfl⟩
    · exact Or.inr rfl
  · rw [ParseCommand_compose_branch cv n hC]
    split_ifs with h1 h2
    · exact Or.inr rfl
    · exact Or.inl ⟨_, rfl⟩
    · exact Or.inr rfl
  · rfl

/-- Witness for C4 at the concrete line `DEG_BY 5`. -/
theorem c4_argument_commands_witness :
    IsCorrectCommand ⟨"DEG_BY 5".toList⟩ "DEG_BY" = true ∧
    ((∃ v, ParseCommand ⟨"DEG_BY 5".toList⟩ 3 = (Line.cmdArg .DEG_BY v, [])) ∨
      ParseCommand ⟨"DEG_BY 5".toList⟩ 3 =
        (Line.wrong, [PrintErrorMsg 3 DEG_BY_WRONG_VARIABLE])) :=
  ⟨by decide, (c4_argument_commands ⟨"DEG_BY 5".toList⟩ 3).1 (by decide)⟩

/-- Claim C5: on a line starting with an alphabetic character, a command
is produced only when the line is exactly the keyword (end of line right
after it), or exactly the keyword, one space and a numeric argument; any
other trailing content never yields that command. -/
theorem c5_trailing_content (cv : CVector) (n : Nat)
    (halpha : Cisalpha (cv.items.getD 0 '\x00') = true) :
    (∀ c, (Parse cv n).1 = Line.cmd c → cv.content = (kwString c).toList) ∧
    (∀ c v, (Parse cv n).1 = Line.cmdArg c v →
      ∃ a, cv.content = (kwString c).toList ++ ' ' :: a ∧ CoeffG a) := by
  have hP : Parse cv n = ParseCommand cv n := by
    simp only [Parse, halpha]
    simp
  rw [hP]
  rcases ParseCommand_shape cv n with ⟨c, hres, hcon⟩ | ⟨c, v, a, hres, hcon, hcoeff⟩ |
    ⟨m, hres, hm⟩
  · refine ⟨fun c' h => ?_, fun c' v' h => ?_⟩
    · rw [hres] at h
      have h' : Line.cmd c = Line.cmd c' := h
      injection h' with hcc
      subst hcc
      exact hcon
    · rw [hres] at h
      exact absurd h (by simp)
  · refine ⟨fun c' h => ?_, fun c' v' h => ?_⟩
    · rw [hres] at h
      exact absurd h (by simp)
    · rw [hres] at h
      have h' : Line.cmdArg c v = Line.cmdArg c' v' := h
      injection h' with hcc hvv
      subst hcc
      exact ⟨a, hcon, hcoeff⟩
  · refine ⟨fun c' h => ?_, fun c' v' h => ?_⟩ <;> rw [hres] at h <;>
      exact absurd h (by simp)

/-- Witness for C5 at the concrete line `AT -5`. -/
theorem c5_trailing_content_witness :
    Cisalpha ((CVector.items ⟨"AT -5".toList⟩).getD 0 '\x00') = true ∧
    (∃ a, (⟨"AT -5".toList⟩ : CVector).content = (kwString .AT).toList ++ ' ' :: a ∧
      CoeffG a) :=
  ⟨by decide,
   (c5_trailing_content ⟨"AT -5".toList⟩ 1 (by decide)).2 .AT (-5) (by rfl)⟩

/-- Claim C10: a command line with an embedded NUL byte before its
recorded end never produces a command result: `ParseCommand` returns the
error line. -/
theorem c10_embedded_nul (cv : CVector) (n : Nat) (h : '\x00' ∈ cv.content) :
    (ParseCommand cv n).1 = Line.wrong := by
  rcases ParseCommand_shape cv n with ⟨c, hres, hcon⟩ | ⟨c, v, a, hres, hcon, hcoeff⟩ |
    ⟨m, hres, -⟩
  · exfalso
    rw [hcon] at h
    cases c <;> exact absurd h (by decide)
  · exfalso
    rw [hcon, List.mem_append] at h
    rcases h with h | h
    · cases c <;> exact absurd h (by decide)
    · rcases List.mem_cons.mp h with h0 | h1
      · exact absurd h0 (by decide)
      · obtain ⟨ds, hne, hall, hcase⟩ := hcoeff
        rcases hcase with rfl | rfl
        · exact absurd (hall _ h1) (by decide)
        · rcases List.mem_cons.mp h1 with h2 | h3
          · exact absurd h2 (by decide)
          · exact absurd (hall _ h3) (by decide)
  · rw [hres]

/-- Witness for C10 at the line `ZERO`, NUL, `x`. -/
theorem c10_embedded_nul_witness :
    '\x00' ∈ (⟨['Z', 'E', 'R', 'O', '\x00', 'x']⟩ : CVector).content ∧
    (ParseCommand ⟨['Z', 'E', 'R', 'O', '\x00', 'x']⟩ 2).1 = Line.wrong :=
  ⟨by decide, c10_embedded_nul ⟨['Z', 'E', 'R', 'O', '\x00', 'x']⟩ 2 (by decide)⟩

/-- Claim C8: a failing line prints exactly one diagnostic
`ERROR <lineNr> <MESSAGE>` with a message from the fixed set and yields
the error variant; a command or polynomial result prints nothing. -/
theorem c8_single_diagnostic (cv : CVector) (n : Nat) :
    ((Parse cv n).1 = Line.wrong →
      ∃ m, MsgSet m ∧ (Parse cv n).2 = [PrintErrorMsg n m]) ∧
    ((Parse cv n).1 ≠ Line.wrong → (Parse cv n).2 = []) := by
  by_cases halpha : Cisalpha (cv.items.getD 0 '\x00') = true
  · have hP : Parse cv n = ParseCommand cv n := by
      simp only [Parse, halpha]
      simp
    rw [hP]
    rcases ParseCommand_shape cv n with ⟨c, hres, -⟩ | ⟨c, v, a, hres, -, -⟩ |
      ⟨m, hres, hm⟩
    · rw [hres]
      exact ⟨fun h => absurd h (by simp), fun _ => rfl⟩
    · rw [hres]
      exact ⟨fun h => absurd h (by simp), fun _ => rfl⟩
    · rw [hres]
      refine ⟨fun _ => ⟨m, ?_, rfl⟩, fun hne => absurd rfl hne⟩
      rcases hm with h | h | h | h <;> subst h <;> simp [MsgSet]
  · have hP : Parse cv n = ParsePoly cv n := by
      unfold Parse
      rw [if_neg halpha]
    rw [hP]
    unfold ParsePoly
    split_ifs with h1
    · exact ⟨fun _ => ⟨WRONG_POLY, Or.inr (Or.inl rfl), rfl⟩, fun hne => absurd rfl hne⟩
    · rcases hres : ParsePolyHelperF (3 * (cstr cv.items).length + 3) (cstr cv.items)
        with ⟨p, r, e⟩
      simp only [hres]
      split_ifs with h2
      · exact ⟨fun _ => ⟨WRONG_POLY, Or.inr (Or.inl rfl), rfl⟩, fun hne => absurd rfl hne⟩
      · exact ⟨fun h => absurd h (by simp [PolyLine]), fun _ => rfl⟩

/-- Witness for C8 at the failing line `FOO` and the succeeding line
`ADD`. -/
theorem c8_single_diagnostic_witness :
    (∃ m, MsgSet m ∧ (Parse ⟨"FOO".toList⟩ 5).2 = [PrintErrorMsg 5 m]) ∧
    (Parse ⟨"ADD".toList⟩ 6).2 = [] :=
  ⟨(c8_single_diagnostic ⟨"FOO".toList⟩ 5).1 rfl,
   (c8_single_diagnostic ⟨"ADD".toList⟩ 6).2 (by
     rw [show (Parse ⟨"ADD".toList⟩ 6).1 = Line.cmd .ADD from rfl]
     simp)⟩

/-! ## Soundness of the structural polynomial parser -/

theorem strtoll_value_nonneg {s : List Char} (hd : Cisdigit (peek s) = true) :
    0 ≤ (strtoll s).value := by
  rcases s with _ | ⟨c, t⟩
  · exact absurd hd (by decide)
  · have hpk : peek (c :: t) = c := rfl
    rw [hpk] at hd
    have hneg : signNeg (c :: t) = false := by
      simp [signNeg, signSplit, Cisdigit_ne_minus hd, Cisdigit_ne_plus hd]
    have hval : subjectVal (c :: t) = (decVal (decDigits (signTail (c :: t))) : Int) := by
      rw [subjectVal, hneg]
      simp
    unfold strtoll
    split_ifs with h1 h2 h3
    · exact le_refl 0
    · norm_num [LLONG_MAX]
    · exfalso
      rw [hval] at h3
      have hnn : (0 : Int) ≤ (decVal (decDigits (signTail (c :: t))) : Int) :=
        Int.natCast_nonneg _
      simp only [LLONG_MIN] at h3
      omega
    · have hv : (ConvResult.mk (subjectVal (c :: t)) (decRest (signTail (c :: t)))
          false).value = subjectVal (c :: t) := rfl
      rw [hv, hval]
      positivity

theorem ParseExp_success {u : List Char} {x : Int} {r2 : List Char}
    (h : ParseExp u = (x, r2, false)) :
    ∃ ee, ee ≠ [] ∧ (∀ c ∈ ee, Cisdigit c = true) ∧ u = ee ++ r2 ∧
      peek r2 = ')' ∧ 0 ≤ x ∧ x ≤ INT_MAX := by
  unfold ParseExp at h
  split_ifs at h with h1 h2
  · exact absurd h (by simp)
  · exact absurd h (by simp)
  · rw [Prod.mk.injEq, Prod.mk.injEq] at h
    obtain ⟨hx, hr, -⟩ := h
    have hdu : Cisdigit (peek u) = true := by
      rcases hcu : Cisdigit (peek u)
      · rw [hcu] at h1
        exact absurd rfl h1
      · rfl
    push_neg at h2
    obtain ⟨hrange, hclose, hbound⟩ := h2
    rcases strtoll_decomp (s := u) (by rw [IsDigitOrMinus, Bool.or_eq_true]; exact Or.inl hdu)
      with ⟨ds, hne, hall, hcase⟩ | ⟨hrest, t, hcons⟩
    · rcases hcase with hsplit | hsplit
      · exact ⟨ds, hne, hall, by rw [← hr]; exact hsplit, by rw [← hr]; exact hclose,
          by rw [← hx]; exact strtoll_value_nonneg hdu, by rw [← hx]; omega⟩
      · exfalso
        rw [hsplit] at hdu
        rw [show peek (('-' :: ds) ++ (strtoll u).rest) = '-' from rfl] at hdu
        exact absurd hdu (by decide)
    · exfalso
      rw [hcons] at hdu
      rw [show peek ('-' :: t) = '-' from rfl] at hdu
      exact absurd hdu (by decide)

theorem TermG_assoc {pp ee : List Char} (hp : PolyG pp) (hne : ee ≠ [])
    (hall : ∀ c ∈ ee, Cisdigit c = true) :
    TermG ('(' :: ((pp ++ ',' :: ee) ++ [')'])) := by
  have h := TermG.mk pp ee hp hne hall
  simpa [List.append_assoc, List.cons_append] using h

/-- Soundness of the recursive-descent parser: whatever each of the
three mutually recursive functions accepts is generated by the spec's
grammar, and each stops only on the characters the code tests for. -/
theorem parser_sound : ∀ f : Nat,
    (∀ s p r, ParsePolyHelperF f s = (p, r, false) →
      (∃ pre, s = pre ++ r ∧ PolyG pre) ∧ (peek r = '\x00' ∨ peek r = ',')) ∧
    (∀ s acc poly r, SumLoopF f s acc = (poly, r, false) →
      (∃ pre, s = pre ++ r ∧ TermSumG pre) ∧ (peek r = '\x00' ∨ peek r = ',')) ∧
    (∀ s m r, ParseMonoF f s = (m, r, false) →
      ∃ pp ee r', PolyG pp ∧ ee ≠ [] ∧ (∀ c ∈ ee, Cisdigit c = true) ∧
        s = (pp ++ ',' :: ee) ++ r ∧ r = ')' :: r') := by
  intro f
  induction f with
  | zero =>
    refine ⟨fun s p r h => ?_, fun s acc poly r h => ?_, fun s m r h => ?_⟩
    · exact absurd h (by simp [ParsePolyHelperF])
    · exact absurd h (by simp [SumLoopF])
    · exact absurd h (by simp [ParseMonoF])
  | succ f ih =>
    obtain ⟨ihH, ihS, ihM⟩ := ih
    refine ⟨fun s p r h => ?_, fun s acc poly r h => ?_, fun s m r h => ?_⟩
    · -- `ParsePolyHelperF (f+1)`
      simp only [ParsePolyHelperF] at h
      split_ifs at h with h1 h2 h3
      · exact absurd h (by simp)
      · exact absurd h (by simp)
      · rw [Prod.mk.injEq, Prod.mk.injEq] at h
        obtain ⟨hp, hr, -⟩ := h
        push_neg at h3
        obtain ⟨hrange, hcomma⟩ := h3
        have hpk : peek (strtoll s).rest = '\x00' ∨ peek (strtoll s).rest = ',' := by
          by_cases hc : peek (strtoll s).rest = ','
          · exact Or.inr hc
          · exact Or.inl (hcomma hc)
        subst hr
        refine ⟨?_, hpk⟩
        rcases strtoll_decomp (s := s) h2 with ⟨ds, hne, hall, hcase⟩ | ⟨hrest, t, hcons⟩
        · rcases hcase with hsplit | hsplit
          · exact ⟨ds, hsplit, PolyG.coefficient _ ⟨ds, hne, hall, Or.inl rfl⟩⟩
          · exact ⟨'-' :: ds, hsplit, PolyG.coefficient _ ⟨ds, hne, hall, Or.inr rfl⟩⟩
        · exfalso
          rw [hrest, hcons] at hpk
          rcases hpk with hx | hx <;>
            rw [show peek ('-' :: t) = '-' from rfl] at hx <;> exact absurd hx (by decide)
      · obtain ⟨⟨pre, hpre, hts⟩, hpk⟩ := ihS s [] p r h
        exact ⟨⟨pre, hpre, PolyG.sum pre hts⟩, hpk⟩
    · -- `SumLoopF (f+1)`
      simp only [SumLoopF] at h
      by_cases h1 : peek s ≠ '('
      · rw [if_pos h1] at h
        exact absurd h (by simp)
      · rw [if_neg h1] at h
        push_neg at h1
        rcases hm : ParseMonoF f (s.drop 1) with ⟨m0, r0, e0⟩
        simp only [hm] at h
        by_cases he0 : e0 = true
        · rw [if_pos he0] at h
          exact absurd h (by simp)
        · rw [if_neg he0] at h
          rw [bool_not_true he0] at hm
          obtain ⟨pp, ee, r0', hpoly, hne, hall, hsplit, hr0⟩ := ihM _ _ _ hm
          rcases s with _ | ⟨c, t⟩
          · exact absurd h1 (by decide)
          · have hc : c = '(' := h1
            subst hc
            simp only [List.drop_succ_cons, List.drop_zero] at hsplit h
            subst hr0
            simp only [List.drop_succ_cons, List.drop_zero] at h
            by_cases hbreak : peek r0' = '\x00' ∨ peek r0' = ','
            · rw [if_pos hbreak] at h
              rw [Prod.mk.injEq, Prod.mk.injEq] at h
              obtain ⟨-, hr, -⟩ := h
              subst hr
              refine ⟨⟨'(' :: ((pp ++ ',' :: ee) ++ [')']), ?_,
                TermSumG.one _ (TermG_assoc hpoly hne hall)⟩, hbreak⟩
              rw [hsplit]
              simp [List.append_assoc]
            · rw [if_neg hbreak] at h
              by_cases hplus : peek r0' ≠ '+'
              · rw [if_pos hplus] at h
                exact absurd h (by simp)
              · rw [if_neg hplus] at h
                push_neg at hplus
                rcases r0' with _ | ⟨c2, r2⟩
                · exact absurd hplus (by decide)
                · have hc2 : c2 = '+' := hplus
                  subst hc2
                  simp only [List.drop_succ_cons, List.drop_zero] at h
                  obtain ⟨⟨pre2, hpre2, hts2⟩, hpk2⟩ := ihS _ _ _ _ h
                  refine ⟨⟨('(' :: ((pp ++ ',' :: ee) ++ [')'])) ++ '+' :: pre2, ?_,
                    TermSumG.more _ _ (TermG_assoc hpoly hne hall) hts2⟩, hpk2⟩
                  rw [hsplit, hpre2]
                  simp [List.append_assoc]
    · -- `ParseMonoF (f+1)`
      simp only [ParseMonoF] at h
      by_cases h1 : peek s = '\x00'
      · rw [if_pos h1] at h
        exact absurd h (by simp)
      · rw [if_neg h1] at h
        rcases hh : ParsePolyHelperF f s with ⟨p0, r0, e0⟩
        simp only [hh] at h
        by_cases he0 : e0 = true
        · rw [if_pos he0] at h
          exact absurd h (by simp)
        · rw [if_neg he0] at h
          rw [bool_not_true he0] at hh
          obtain ⟨⟨pre, hpre, hpoly⟩, hpk⟩ := ihH _ _ _ hh
          by_cases hnul : peek r0 = '\x00'
          · rw [if_pos hnul] at h
            exact absurd h (by simp)
          · rw [if_neg hnul] at h
            have hcomma : peek r0 = ',' := by
              rcases hpk with hx | hx
              · exact absurd hx hnul
              · exact hx
            rcases r0 with _ | ⟨c0, r01⟩
            · exact absurd hcomma (by decide)
            · have hc0 : c0 = ',' := hcomma
              subst hc0
              simp only [List.drop_succ_cons, List.drop_zero] at h
              rcases he : ParseExp r01 with ⟨x0, r2, e2⟩
              simp only [he] at h
              by_cases he2 : e2 = true
              · rw [if_pos he2] at h
                exact absurd h (by simp)
              · rw [if_neg he2] at h
                rw [bool_not_true he2] at he
                obtain ⟨ee, hne, hall, hu, hclose, hx0, hbound⟩ := ParseExp_success he
                rw [Prod.mk.injEq, Prod.mk.injEq] at h
                obtain ⟨-, hr, -⟩ := h
                subst hr
                rcases r2 with _ | ⟨c3, r3⟩
                · exact absurd hclose (by decide)
                · have hc3 : c3 = ')' := hclose
                  subst hc3
                  refine ⟨pre, ee, r3, hpoly, hne, hall, ?_, rfl⟩
                  rw [hpre, hu]
                  simp [List.append_assoc]

/-! ## Shape facts about the grammar -/

theorem getLast?_append_of_ne_nil {l l' : List Char} (h : l' ≠ []) :
    (l ++ l').getLast? = l'.getLast? := by
  rw [List.getLast?_append]
  exact Option.or_of_isSome (List.getLast?_isSome.mpr h)

theorem TermG_shape {l : List Char} (h : TermG l) :
    ∃ mid, l = '(' :: (mid ++ [')']) := by
  cases h with
  | mk p e hp hne hall => exact ⟨p ++ ',' :: e, by simp [List.append_assoc]⟩

theorem TermSumG_shape {l : List Char} (h : TermSumG l) :
    ∃ mid, l = '(' :: (mid ++ [')']) := by
  have main : ∀ k, ∀ l0 : List Char, l0.length ≤ k → TermSumG l0 →
      ∃ mid, l0 = '(' :: (mid ++ [')']) := by
    intro k
    induction k with
    | zero =>
      intro l0 hl h0
      cases h0 with
      | one _ ht => exact TermG_shape ht
      | more t rest ht hrest =>
        obtain ⟨mid1, hmid1⟩ := TermG_shape ht
        exfalso
        rw [hmid1] at hl
        simp at hl
    | succ k ihk =>
      intro l0 hl h0
      cases h0 with
      | one _ ht => exact TermG_shape ht
      | more t rest ht hrest =>
        obtain ⟨mid1, hmid1⟩ := TermG_shape ht
        obtain ⟨mid2, hmid2⟩ := ihk rest (by rw [hmid1] at hl; simp at hl ⊢; omega) hrest
        refine ⟨mid1 ++ [')'] ++ '+' :: '(' :: mid2, ?_⟩
        rw [hmid1, hmid2]
        simp [List.append_assoc]
  exact main l.length l (le_refl _) h

theorem CoeffG_ne_nil {l : List Char} (h : CoeffG l) : l ≠ [] := by
  obtain ⟨ds, hne, -, hcase⟩ := h
  rcases hcase with rfl | rfl
  · exact hne
  · simp

theorem CoeffG_no_plus {l : List Char} (h : CoeffG l) : '+' ∉ l := by
  obtain ⟨ds, hne, hall, hcase⟩ := h
  have hds : '+' ∉ ds := fun hm => absurd (hall _ hm) (by decide)
  rcases hcase with rfl | rfl
  · exact hds
  · intro hm
    rcases List.mem_cons.mp hm with h0 | h0
    · exact absurd h0 (by decide)
    · exact hds h0

theorem CoeffG_last {l : List Char} (h : CoeffG l) :
    ∃ d, l.getLast? = some d ∧ Cisdigit d = true := by
  obtain ⟨ds, hne, hall, hcase⟩ := h
  have hlast : ∃ d, ds.getLast? = some d ∧ Cisdigit d = true := by
    rcases hgl : ds.getLast? with _ | d
    · exact absurd (List.getLast?_eq_none_iff.mp hgl) hne
    · exact ⟨d, rfl, hall d (List.mem_of_mem_getLast? hgl)⟩
  rcases hcase with rfl | rfl
  · exact hlast
  · obtain ⟨d, hd, hdig⟩ := hlast
    refine ⟨d, ?_, hdig⟩
    rw [show ('-' :: ds) = ['-'] ++ ds from rfl, getLast?_append_of_ne_nil hne, hd]

/-- A line mixing the two polynomial forms is not generated by the
grammar. -/
theorem mixed_not_polyg {l : List Char} (hm : MixedForm l) : ¬ PolyG l := by
  intro hp
  rcases hm with ⟨a, b, hca, rfl⟩ | ⟨t, c, hts, hcc, rfl⟩
  · cases hp with
    | coefficient _ hc => exact CoeffG_no_plus hc (by simp)
    | sum _ hs =>
      obtain ⟨mid, hmid⟩ := TermSumG_shape hs
      obtain ⟨ds, hne, hall, hcase⟩ := hca
      rcases hcase with h | h
      · subst h
        rcases a with _ | ⟨d0, as'⟩
        · exact hne rfl
        · simp only [List.cons_append] at hmid
          injection hmid with h1 h2
          have hd0 := hall d0 (by simp)
          rw [h1] at hd0
          exact absurd hd0 (by decide)
      · rw [h] at hmid
        simp only [List.cons_append] at hmid
        injection hmid with h1 h2
        exact absurd h1 (by decide)
  · cases hp with
    | coefficient _ hc => exact CoeffG_no_plus hc (by simp)
    | sum _ hs =>
      obtain ⟨mid, hmid⟩ := TermSumG_shape hs
      obtain ⟨d, hlastc, hdig⟩ := CoeffG_last hcc
      have h1 : (t ++ '+' :: c).getLast? = some d := by
        rw [getLast?_append_of_ne_nil (by simp),
          show ('+' :: c) = ['+'] ++ c from rfl,
          getLast?_append_of_ne_nil (CoeffG_ne_nil hcc), hlastc]
      have h2 : (t ++ '+' :: c).getLast? = some ')' := by
        rw [hmid, show ('(' :: (mid ++ [')'])) = ('(' :: mid) ++ [')'] from by simp,
          List.getLast?_concat]
      rw [h1] at h2
      injection h2 with h3
      rw [h3] at hdig
      exact absurd hdig (by decide)

theorem no_illegal_content {cv : CVector} (h : HasIllegalCharacters cv = false) :
    ∀ c ∈ cv.content, IsLegalCaracter c = true := by
  rw [HasIllegalCharacters] at h
  have htake : cv.items.take (cv.size - 1) = cv.content := by
    rw [size_eq, CVector.items, Nat.add_sub_cancel]
    exact List.take_left cv.content ['\x00']
  rw [htake, List.any_eq_false] at h
  intro c hc
  have := h c hc
  rcases hlc : IsLegalCaracter c
  · exact absurd (by rw [hlc]; rfl) this
  · rfl

/-! ## Claims about the expression parser -/

/-- Claim C2: every accepted polynomial line is generated by the spec's
grammar `Polynomial := Coefficient | TermSum`, and every line mixing the
two forms (a coefficient followed by `+` and anything, or a term sum
followed by `+` and a bare coefficient) is rejected. -/
theorem c2_accepted_grammar (cv : CVector) (n : Nat) :
    (∀ p out, ParsePoly cv n = (Line.poly p, out) → PolyG cv.content) ∧
    (MixedForm cv.content → ∀ p out, ParsePoly cv n ≠ (Line.poly p, out)) := by
  have hmain : ∀ p out, ParsePoly cv n = (Line.poly p, out) → PolyG cv.content := by
    intro p out h
    unfold ParsePoly at h
    split_ifs at h with h1
    · exact absurd h (by simp [WrongLine])
    · rcases hres : ParsePolyHelperF (3 * (cstr cv.items).length + 3) (cstr cv.items)
        with ⟨p0, r0, e0⟩
      simp only [hres] at h
      split_ifs at h with h2
      · exact absurd h (by simp [WrongLine])
      · push_neg at h2
        obtain ⟨he0, hpk⟩ := h2
        rw [bool_not_true he0] at hres
        obtain ⟨⟨pre, hpre, hpoly⟩, -⟩ := (parser_sound _).1 _ _ _ hres
        have hnul : r0 = [] := by
          rcases r0 with _ | ⟨c0, t0⟩
          · rfl
          · exfalso
            have hc0 : c0 = '\x00' := hpk
            have hmem : c0 ∈ cstr cv.items := by
              rw [hpre]
              simp
            exact absurd hc0 (cstr_no_nul hmem)
        subst hnul
        rw [List.append_nil] at hpre
        have hIll : HasIllegalCharacters cv = false := by
          rcases hA : HasIllegalCharacters cv
          · rfl
          · exact absurd (by rw [hA]; rfl) h1
        have hcc : cstr cv.items = cv.content := by
          rw [cstr_items]
          apply cstr_eq_self
          intro c hc hcnul
          have hl := no_illegal_content hIll c hc
          rw [hcnul] at hl
          exact absurd hl (by decide)
        rw [← hcc, hpre]
        exact hpoly
  refine ⟨hmain, fun hmix p out h => ?_⟩
  exact absurd (hmain p out h) (mixed_not_polyg hmix)

/-- Witness for C2: the line `5` is accepted and grammatical; the mixed
line `5+(1,2)` is rejected. -/
theorem c2_accepted_grammar_witness :
    (ParsePoly ⟨['5']⟩ 1 = (Line.poly (Poly.pcoeff 5), []) ∧ PolyG ['5']) ∧
    ParsePoly ⟨"5+(1,2)".toList⟩ 3 ≠ (Line.poly (Poly.pcoeff 0), []) :=
  ⟨⟨rfl, (c2_accepted_grammar ⟨['5']⟩ 1).1 (Poly.pcoeff 5) [] rfl⟩,
   (c2_accepted_grammar ⟨"5+(1,2)".toList⟩ 3).2
     (Or.inl ⟨['5'], "(1,2)".toList, ⟨['5'], by decide, by decide, Or.inl rfl⟩, by decide⟩)
     (Poly.pcoeff 0) []⟩

/-- Claim C7: when the structural parser succeeds but unconsumed
characters remain before the end of the line, `ParsePoly` fails with
`WRONG POLY` and returns no polynomial. -/
theorem c7_trailing_characters (cv : CVector) (n : Nat) (p : Poly) (r : List Char)
    (hsucc : ParsePolyHelperF (3 * (cstr cv.items).length + 3) (cstr cv.items)
      = (p, r, false))
    (hne : r ≠ []) :
    ParsePoly cv n = (Line.wrong, [PrintErrorMsg n WRONG_POLY]) := by
  unfold ParsePoly
  split_ifs with h1
  · rfl
  · have hcond : (false : Bool) = true ∨ peek r ≠ '\x00' := by
      right
      obtain ⟨⟨pre, hpre, -⟩, -⟩ := (parser_sound _).1 _ _ _ hsucc
      rcases r with _ | ⟨c0, t0⟩
      · exact absurd rfl hne
      · intro hc
        have hc0 : c0 = '\x00' := hc
        have hmem : c0 ∈ cstr cv.items := by
          rw [hpre]
          simp
        exact absurd hc0 (cstr_no_nul hmem)
    simp only [hsucc]
    rw [if_pos hcond]
    rfl

/-- Witness for C7 at the concrete line `5,`. -/
theorem c7_trailing_characters_witness :
    ParsePolyHelperF (3 * (cstr (CVector.items ⟨['5', ',']⟩)).length + 3)
      (cstr (CVector.items ⟨['5', ',']⟩)) = (Poly.pcoeff 5, [','], false) ∧
    ParsePoly ⟨['5', ',']⟩ 1 = (Line.wrong, [PrintErrorMsg 1 WRONG_POLY]) :=
  ⟨rfl, c7_trailing_characters ⟨['5', ',']⟩ 1 (Poly.pcoeff 5) [','] rfl (by simp)⟩

theorem strtoll_value_digit {s : List Char} (hd : Cisdigit (peek s) = true)
    (hr : (strtoll s).range = false) :
    (strtoll s).value = (decVal (decDigits s) : Int) := by
  rcases s with _ | ⟨c, t⟩
  · exact absurd hd (by decide)
  · have hc : Cisdigit c = true := hd
    have hts := signTail_not_sign (t := t) (Cisdigit_ne_minus hc) (Cisdigit_ne_plus hc)
    have hneg : signNeg (c :: t) = false := by
      simp [signNeg, signSplit, Cisdigit_ne_minus hc, Cisdigit_ne_plus hc]
    have hval : subjectVal (c :: t) = (decVal (decDigits (c :: t)) : Int) := by
      rw [subjectVal, hneg, hts]
      simp
    have hne : decDigits (signTail (c :: t)) ≠ [] := by
      rw [hts, decDigits_cons_of_digit hc]
      simp
    unfold strtoll
    split_ifs with hx1 hx2 hx3
    · exact absurd hx1 hne
    · exfalso
      unfold strtoll at hr
      rw [if_neg hx1, if_pos hx2] at hr
      exact absurd hr (by simp)
    · exfalso
      unfold strtoll at hr
      rw [if_neg hx1, if_neg hx2, if_pos hx3] at hr
      exact absurd hr (by simp)
    · exact hval

/-- Claim C3: a successfully parsed exponent is nonnegative, at most
`INT_MAX` and immediately followed by `')'`; an exponent whose digits
exceed `INT_MAX` makes `ParseExp` fail; a coefficient conversion that
does not report a range error is within the signed 64-bit range; a line
whose leading coefficient overflows is rejected by `ParsePoly`; the
concrete overflowing lines `(99999999999999999999,1)` and
`(1,2147483648)` are rejected with `WRONG POLY`. -/
theorem c3_numeric_ranges :
    (∀ s x r2, ParseExp s = (x, r2, false) → 0 ≤ x ∧ x ≤ INT_MAX ∧ peek r2 = ')') ∧
    (∀ s : List Char, INT_MAX < (decVal (decDigits s) : Int) →
      (ParseExp s).2.2 = true) ∧
    (∀ s : List Char, (strtoll s).range = false →
      LLONG_MIN ≤ (strtoll s).value ∧ (strtoll s).value ≤ LLONG_MAX) ∧
    (∀ (cv : CVector) (n : Nat), IsDigitOrMinus (peek (cstr cv.items)) = true →
      (strtoll (cstr cv.items)).range = true → (ParsePoly cv n).1 = Line.wrong) ∧
    ParsePoly ⟨"(99999999999999999999,1)".toList⟩ 1 =
      (Line.wrong, [PrintErrorMsg 1 WRONG_POLY]) ∧
    ParsePoly ⟨"(1,2147483648)".toList⟩ 2 = (Line.wrong, [PrintErrorMsg 2 WRONG_POLY]) := by
  refine ⟨?_, ?_, fun s => strtoll_range_false, ?_, rfl, rfl⟩
  · intro s x r2 h
    obtain ⟨ee, -, -, -, hclose, hx0, hbound⟩ := ParseExp_success h
    exact ⟨hx0, hbound, hclose⟩
  · intro s hbig
    have hdne : decDigits s ≠ [] := by
      intro h0
      rw [h0] at hbig
      norm_num [decVal, INT_MAX] at hbig
    have hd : Cisdigit (peek s) = true := by
      rcases s with _ | ⟨c, t⟩
      · simp [decDigits] at hdne
      · by_cases hc : Cisdigit c = true
        · exact hc
        · rw [decDigits, List.takeWhile_cons] at hdne
          simp [hc] at hdne
    have hcond : (strtol s).range = true ∨ peek (strtol s).rest ≠ ')' ∨
        (strtol s).value > INT_MAX := by
      by_cases hr : (strtol s).range = true
      · exact Or.inl hr
      · right
        right
        have hv := strtoll_value_digit hd (bool_not_true hr)
        rw [show (strtol s).value = (strtoll s).value from rfl, hv]
        exact hbig
    unfold ParseExp
    rw [if_neg (by simp [hd]), if_pos hcond]
  · intro cv n hd hrange
    unfold ParsePoly
    split_ifs with h1
    · rfl
    · have hstep : ParsePolyHelperF (3 * (cstr cv.items).length + 3) (cstr cv.items)
          = (PolyFromCoeff (strtoll (cstr cv.items)).value,
             (strtoll (cstr cv.items)).rest, true) := by
        have h3 : 3 * (cstr cv.items).length + 3 = (3 * (cstr cv.items).length + 2) + 1 := by
          omega
        rw [h3]
        simp only [ParsePolyHelperF]
        rw [if_neg ?_, if_pos hd, if_pos (Or.inl hrange)]
        intro h0
        rw [h0] at hd
        exact absurd hd (by decide)
      simp only [hstep]
      rw [if_pos (Or.inl (by trivial))]
      rfl

/-- Witness for C3: a concrete successful exponent parse and a concrete
overflowing coefficient line. -/
theorem c3_numeric_ranges_witness :
    (0 ≤ (5 : Int) ∧ (5 : Int) ≤ INT_MAX ∧ peek [')'] = ')') ∧
    (ParsePoly ⟨"99999999999999999999".toList⟩ 4).1 = Line.wrong :=
  ⟨c3_numeric_ranges.1 ['5', ')'] 5 [')'] rfl,
   c3_numeric_ranges.2.2.2.1 ⟨"99999999999999999999".toList⟩ 4 (by decide) (by decide)⟩

/-! ## Claims C1, C6, C9 -/

/-- Claim C1: for every line routed to the expression parser, if the line
contains a character other than a digit, `-`, `+`, `(`, `)`, `,` (this is
`HasIllegalCharacters`), or if its parentheses are not balanced in the
counter sense (`AreParenthesesValid` is false), `ParsePoly` rejects the
line with the single uniform `WRONG POLY` error, before any structural
parsing. -/
theorem c1_upfront_checks_reject (cv : CVector) (n : Nat)
    (h : HasIllegalCharacters cv = true ∨ AreParenthesesValid (cstr cv.items) = false) :
    ParsePoly cv n = (Line.wrong, [PrintErrorMsg n WRONG_POLY]) := by
  unfold ParsePoly
  rcases h with h | h <;> simp [h, WrongLine]

/-- Witness for C1 at the concrete line `5a` (illegal character `a`). -/
theorem c1_upfront_checks_reject_witness :
    (HasIllegalCharacters ⟨['5', 'a']⟩ = true ∨
      AreParenthesesValid (cstr (CVector.items ⟨['5', 'a']⟩)) = false) ∧
    ParsePoly ⟨['5', 'a']⟩ 7 = (Line.wrong, [PrintErrorMsg 7 WRONG_POLY]) :=
  ⟨Or.inl (by decide), c1_upfront_checks_reject ⟨['5', 'a']⟩ 7 (Or.inl (by decide))⟩

/-- Claim C6: `Parse` routes a line to the command classifier exactly
when its first stored character is alphabetic, and to the expression
parser otherwise. -/
theorem c6_parse_routing (cv : CVector) (n : Nat) :
    (Cisalpha (cv.items.getD 0 '\x00') = true → Parse cv n = ParseCommand cv n) ∧
    (Cisalpha (cv.items.getD 0 '\x00') = false → Parse cv n = ParsePoly cv n) := by
  constructor <;> intro h <;> simp only [Parse, h] <;> simp

/-- Witness for C6 at the concrete lines `ADD` and `5`. -/
theorem c6_parse_routing_witness :
    Parse ⟨['A', 'D', 'D']⟩ 1 = ParseCommand ⟨['A', 'D', 'D']⟩ 1 ∧
    Parse ⟨['5']⟩ 2 = ParsePoly ⟨['5']⟩ 2 :=
  ⟨(c6_parse_routing ⟨['A', 'D', 'D']⟩ 1).1 (by decide),
   (c6_parse_routing ⟨['5']⟩ 2).2 (by decide)⟩

/-- Claim C9: the empty line is routed to the expression parser, passes
both up-front checks, fails structural parsing, reports `WRONG POLY`,
and yields the error variant. -/
theorem c9_empty_line (n : Nat) :
    Parse ⟨[]⟩ n = ParsePoly ⟨[]⟩ n ∧
    HasIllegalCharacters ⟨[]⟩ = false ∧
    AreParenthesesValid (cstr (CVector.items ⟨[]⟩)) = true ∧
    Parse ⟨[]⟩ n = (Line.wrong, [PrintErrorMsg n WRONG_POLY]) :=
  ⟨rfl, by decide, by decide, rfl⟩

end PolyCalc
